import Mathlib

/-!
Verification of the TrendRadar external-platform ingestion pipeline
(`src/platforms/__init__.py`, `src/platforms/base.py`, `src/platforms/reddit.py`).

The Python code is shallowly embedded: pure record manipulation becomes Lean
functions on lists, Python dicts (which preserve insertion order) become
association lists `List (String × β)`, network I/O is abstracted as an explicit
list of HTTP outcomes (for the per-endpoint retry loop) or an oracle function
(for per-sub-source fetching inside `fetch_all`), and a raised exception is
modelled as `none` / an explicit constructor.
-/

set_option maxHeartbeats 1000000

namespace TrendRadar

/-- A post record as built by `_fetch_subreddit_posts` (reddit.py lines 127-136):
id, title, upvotes, permalink, created_utc, plus the originating subreddit. -/
structure Post where
  id : String
  title : String
  upvotes : Int
  permalink : String
  created_utc : Int
  subreddit : String
deriving DecidableEq

/-- The per-platform configuration dict. Each field's default value is the
default supplied to `config.get(...)` at the corresponding read site in
`RedditFetcher.__init__` / `is_enabled` / `platform_name`; `name := none`
models an absent "name" key (read with default "Reddit"). -/
structure PlatformConfig where
  enabled : Bool := false
  name : Option String := none
  subreddits : List String := []
  posts_limit : Int := 100
  top_time_filter : String := "day"
  request_interval : Int := 2000
  user_agent : String := "TrendRadar/1.0"
deriving DecidableEq

/-- The state a `RedditFetcher` instance holds after `__init__` (reddit.py
lines 29-44); OAuth credential fields are inert and omitted. -/
structure RedditFetcher where
  config : PlatformConfig
  subreddits : List String
  posts_limit : Int
  top_time_filter : String
  request_interval : Int
  user_agent : String
deriving DecidableEq

/-- `RedditFetcher.__init__` (reddit.py lines 29-44): copies the sub-source
list and clamps `posts_limit` to the range 1-100 via `min(max(1, x), 100)`. -/
def mkRedditFetcher (config : PlatformConfig) : RedditFetcher :=
  { config := config
    subreddits := config.subreddits
    posts_limit := min (max 1 config.posts_limit) 100
    top_time_filter := config.top_time_filter
    request_interval := config.request_interval
    user_agent := config.user_agent }

/-- `platform_id` property (reddit.py lines 46-48). -/
def platform_id (_f : RedditFetcher) : String := "reddit"

/-- `platform_name` property (reddit.py lines 50-52): `config.get("name", "Reddit")`. -/
def platform_name (f : RedditFetcher) : String := f.config.name.getD "Reddit"

/-- `is_enabled` (reddit.py lines 54-55):
`config.get("enabled", False) and len(self.subreddits) > 0`. -/
def is_enabled (f : RedditFetcher) : Bool :=
  f.config.enabled && decide (f.subreddits.length > 0)

/-- First-match lookup in an insertion-ordered association list: `d[k]` /
`k in d` for a Python dict. -/
def alookup {β : Type} : List (String × β) → String → Option β
  | [], _ => none
  | (k, v) :: rest, i => if k = i then some v else alookup rest i

/-- Assignment `d[k] = w` for a key already present in a Python dict: the
value is replaced in place, keeping the key's original position. -/
def areplace {β : Type} : List (String × β) → String → β → List (String × β)
  | [], _, _ => []
  | (k, v) :: rest, i, w => if k = i then (k, w) :: rest else (k, v) :: areplace rest i w

/-- Python's `str.strip()`: drop leading and trailing whitespace. Embedded
structurally on the underlying character list so that concrete instances
reduce in the kernel. -/
def pyStrip (s : String) : String :=
  ⟨((s.data.dropWhile Char.isWhitespace).reverse.dropWhile Char.isWhitespace).reverse⟩

/-- Python's `s.startswith(pre)`, embedded structurally on the character
list. -/
def pyStartsWith (s pre : String) : Bool := pre.data.isPrefixOf s.data

/-- A child object of the listing JSON (`data.children[].data`), as read by
`_fetch_subreddit_posts`; each field's default is the `get` default used there. -/
structure RedditChild where
  id : String := ""
  title : String := ""
  ups : Int := 0
  permalink : String := ""
  created_utc : Int := 0
  stickied : Bool := false
deriving DecidableEq

/-- Outcome of one HTTP GET issued by `_fetch_subreddit_posts`. -/
inductive HttpOutcome where
  /-- Status code 429, with the optional integer Retry-After header. -/
  | rateLimited (retryAfter : Option Int)
  /-- A non-429 success whose body parses to the given children. -/
  | ok (children : List RedditChild)
  /-- A `requests.RequestException` (transport failure or `raise_for_status`). -/
  | exn
deriving DecidableEq

/-- Wait computed on a 429 (reddit.py line 103):
`min(int(response.headers.get("Retry-After", 60)), 120)`. -/
def retryAfterWait (header : Option Int) : Int := min (header.getD 60) 120

/-- The post-extraction loop of `_fetch_subreddit_posts` (reddit.py lines
114-137): skip stickied children, strip the title, skip empty titles, and
record the originating subreddit. -/
def extractPosts (subreddit : String) : List RedditChild → List Post
  | [] => []
  | child :: rest =>
    if child.stickied then extractPosts subreddit rest
    else
      let title := pyStrip child.title
      if title = "" then extractPosts subreddit rest
      else
        { id := child.id
          title := title
          upvotes := child.ups
          permalink := child.permalink
          created_utc := child.created_utc
          subreddit := subreddit } :: extractPosts subreddit rest

/-- The retry loop `for attempt in range(max_retries)` of
`_fetch_subreddit_posts` (reddit.py lines 84-152). `responses` lists the
outcome of each successive HTTP request, in order; every loop iteration
issues exactly one request, so each iteration consumes one list element.
On a 429 the code increments `rate_limit_retries`, abandons with `[]` once
that separate counter exceeds `maxRateLimitRetries`, and otherwise sleeps and
executes `continue` — which moves the `for` loop to its next iteration, i.e.
also advances `attempt`. On a `RequestException` the code retries unless
`attempt == max_retries - 1`, in which case it returns `[]`. `time.sleep` is
a no-op in this embedding. An empty `responses` list stands for runs where no
further request is observed. -/
def fetchLoop (subreddit : String) (maxRetries maxRateLimitRetries : Nat) :
    List HttpOutcome → Nat → Nat → List Post
  | [], _, _ => []
  | r :: rest, attempt, rate_limit_retries =>
    if maxRetries ≤ attempt then []
    else
      match r with
      | .rateLimited _ =>
        if maxRateLimitRetries < rate_limit_retries + 1 then []
        else fetchLoop subreddit maxRetries maxRateLimitRetries rest
               (attempt + 1) (rate_limit_retries + 1)
      | .ok children => extractPosts subreddit children
      | .exn =>
        if attempt < maxRetries - 1 then
          fetchLoop subreddit maxRetries maxRateLimitRetries rest
            (attempt + 1) rate_limit_retries
        else []

/-- `_fetch_subreddit_posts(subreddit, endpoint, max_retries=3)` with the
rate-limit cap `max_rate_limit_retries = 2` (reddit.py lines 64-152), as a
function of the sequence of HTTP outcomes. -/
def fetch_subreddit_posts (subreddit : String) (responses : List HttpOutcome)
    (maxRetries : Nat := 3) : List Post :=
  fetchLoop subreddit maxRetries 2 responses 0 0

/-- Modelled from the spec: the specified rate-limit handling of the
per-endpoint fetch, in which an HTTP 429 "retries the *same* attempt without
consuming a transport-retry count" — only the separate rate-limit counter
(cap 2) advances, so the transport budget of `maxRetries` attempts is
untouched by 429 responses. This definition follows the spec's words, for
comparison with `fetchLoop`, which is the code's actual behavior. -/
def fetchLoopSpec (subreddit : String) (maxRetries maxRateLimitRetries : Nat) :
    List HttpOutcome → Nat → Nat → List Post
  | [], _, _ => []
  | r :: rest, attempt, rate_limit_retries =>
    if maxRetries ≤ attempt then []
    else
      match r with
      | .rateLimited _ =>
        if maxRateLimitRetries < rate_limit_retries + 1 then []
        else fetchLoopSpec subreddit maxRetries maxRateLimitRetries rest
               attempt (rate_limit_retries + 1)
      | .ok children => extractPosts subreddit children
      | .exn =>
        if attempt < maxRetries - 1 then
          fetchLoopSpec subreddit maxRetries maxRateLimitRetries rest
            (attempt + 1) rate_limit_retries
        else []

/-- Modelled from the spec: `fetch_subreddit_posts` under the spec's
independent-budget description of 429 handling (see `fetchLoopSpec`). -/
def fetch_subreddit_posts_spec (subreddit : String) (responses : List HttpOutcome)
    (maxRetries : Nat := 3) : List Post :=
  fetchLoopSpec subreddit maxRetries 2 responses 0 0

/-- One iteration of the `_merge_and_deduplicate` loop (reddit.py lines
171-174): `if post_id not in seen or post["upvotes"] > seen[post_id]["upvotes"]:
seen[post_id] = post`. Assigning a fresh key appends at the end of the dict;
assigning an existing key replaces in place. -/
def insertPost (seen : List (String × Post)) (p : Post) : List (String × Post) :=
  match alookup seen p.id with
  | none => seen ++ [(p.id, p)]
  | some q => if p.upvotes > q.upvotes then areplace seen p.id p else seen

/-- `_merge_and_deduplicate(hot_posts, top_posts)` (reddit.py lines 154-176):
fold the concatenation `hot_posts + top_posts` through the dict update and
return `list(seen.values())`. -/
def merge_and_deduplicate (hot_posts top_posts : List Post) : List Post :=
  ((hot_posts ++ top_posts).foldl insertPost []).map Prod.snd

/-- A value of the title-keyed result dict built by
`_transform_to_trendradar_format`. -/
structure Entry where
  ranks : List Nat
  url : String
  mobileUrl : String
deriving DecidableEq

/-- URL computation of `_transform_to_trendradar_format` (reddit.py lines
198-205): strip the permalink; if it is non-empty and starts with "/" the URL
is `https://reddit.com{permalink}`, else it falls back to the sub-source URL
`https://reddit.com/r/{subreddit}`. (`post.get("subreddit", "all")` — the
subreddit field is always present on records built by `extractPosts`.) -/
def postUrl (p : Post) : String :=
  let permalink := pyStrip p.permalink
  if permalink != "" && pyStartsWith permalink "/" then
    "https://reddit.com" ++ permalink
  else
    "https://reddit.com/r/" ++ p.subreddit

/-- Python's `sorted(posts, key=lambda p: p["upvotes"], reverse=True)`
(reddit.py line 192): a stable sort, descending by upvotes. -/
def sortByUpvotesDesc (posts : List Post) : List Post :=
  posts.mergeSort (fun a b => decide (b.upvotes ≤ a.upvotes))

/-- The `for rank, post in enumerate(sorted_posts, 1)` loop of
`_transform_to_trendradar_format` (reddit.py lines 194-215): a first
occurrence of a title inserts a fresh entry with singleton rank list; a
repeated title appends the rank to the existing entry's list. -/
def transformAux : List Post → List (String × Entry) → Nat → List (String × Entry)
  | [], result, _ => result
  | p :: rest, result, rank =>
    let url := postUrl p
    let result' :=
      match alookup result p.title with
      | some e => areplace result p.title { e with ranks := e.ranks ++ [rank] }
      | none => result ++ [(p.title, { ranks := [rank], url := url, mobileUrl := url })]
    transformAux rest result' (rank + 1)

/-- `_transform_to_trendradar_format(posts)` (reddit.py lines 178-217). -/
def transform_to_trendradar_format (posts : List Post) : List (String × Entry) :=
  transformAux (sortByUpvotesDesc posts) [] 1

/-- Rank list stored for title `t` in a result dict (empty if absent). -/
def entryRanks (result : List (String × Entry)) (t : String) : List Nat :=
  match alookup result t with
  | some e => e.ranks
  | none => []

/-- All ranks stored in a result dict, in dict order. -/
def flattenRanks (result : List (String × Entry)) : List Nat :=
  (result.map (fun kv => kv.2.ranks)).flatten

/-- `fetch_all` (reddit.py lines 245-281). `_fetch_subreddit` performs network
I/O and any exception escaping it is caught by the per-sub-source handler, so
it is abstracted as an oracle `fetchSub : String → Option (List Post)`, where
`none` models a raised exception (the `except` branch appending to
`failed_subreddits`) and `some posts` the merged per-sub-source record list.
Returns the `(results, id_to_name, failed_ids)` triple, with each Python dict
as an association list. -/
def fetch_all (f : RedditFetcher) (fetchSub : String → Option (List Post)) :
    List (String × List (String × Entry)) × List (String × String) × List String :=
  if !is_enabled f then ([], [], [])
  else
    let collected := f.subreddits.foldl
      (fun (acc : List Post × List String) subreddit =>
        match fetchSub subreddit with
        | some posts => (acc.1 ++ posts, acc.2)
        | none => (acc.1, acc.2 ++ [subreddit]))
      ([], [])
    if collected.1 = [] then ([], [], [platform_id f])
    else
      ([(platform_id f, transform_to_trendradar_format collected.1)],
       [(platform_id f, platform_name f)],
       if collected.2 = [] then [] else [platform_id f])

/-- `get_all_enabled_fetchers(config, proxy_url)` (platforms/__init__.py lines
43-65). The registry dict is an insertion-ordered association list from
platform id to constructor; a constructor returning `none` models
`fetcher_class(platform_config, proxy_url)` raising, which is caught, logged
and skipped. The per-platform config is `config.get(platform_id, {})`,
modelled by the total function `config`. -/
def get_all_enabled_fetchers {F : Type}
    (registry : List (String × (PlatformConfig → Option F)))
    (config : String → PlatformConfig) : List F :=
  registry.foldl
    (fun fetchers entry =>
      let platform_config := config entry.1
      if platform_config.enabled then
        match entry.2 platform_config with
        | some fetcher => fetchers ++ [fetcher]
        | none => fetchers
      else fetchers)
    []

/-- `PLATFORM_REGISTRY` after module import: the reddit platform is the one
registered implementation (`@register_platform("reddit")`, reddit.py line 18).
Its typed constructor never raises. -/
def PLATFORM_REGISTRY : List (String × (PlatformConfig → Option RedditFetcher)) :=
  [("reddit", fun cfg => some (mkRedditFetcher cfg))]

/-! ### Registry lemmas -/

/-- Unfolding of the `get_all_enabled_fetchers` fold: the accumulator is
prepended, and the result is the `filterMap` of the registry through the
enabled-check plus constructor. -/
theorem get_all_enabled_foldl {F : Type} (config : String → PlatformConfig) :
    ∀ (registry : List (String × (PlatformConfig → Option F))) (acc : List F),
      registry.foldl
        (fun fetchers entry =>
          let platform_config := config entry.1
          if platform_config.enabled then
            match entry.2 platform_config with
            | some fetcher => fetchers ++ [fetcher]
            | none => fetchers
          else fetchers) acc
      = acc ++ registry.filterMap (fun entry =>
          if (config entry.1).enabled then entry.2 (config entry.1) else none) := by
  intro registry
  induction registry with
  | nil => intro acc; simp
  | cons e rest ih =>
    intro acc
    simp only [List.foldl_cons, List.filterMap_cons]
    by_cases he : (config e.1).enabled = true
    · cases hc : e.2 (config e.1) with
      | none => simp [he, hc, ih acc]
      | some f => simp [he, hc, ih (acc ++ [f])]
    · simp [he, ih acc]

/-- C5: for every registry state and configuration, `get_all_enabled_fetchers`
is exactly the registry filtered to platforms whose configuration is enabled
and whose constructor succeeds; consequently a throwing constructor is caught
and its platform omitted, while every other registered platform whose
constructor succeeds is still constructed and returned. -/
theorem get_all_enabled_fetchers_isolation {F : Type}
    (registry : List (String × (PlatformConfig → Option F)))
    (config : String → PlatformConfig) :
    get_all_enabled_fetchers registry config
      = registry.filterMap (fun entry =>
          if (config entry.1).enabled then entry.2 (config entry.1) else none)
    ∧ ∀ pid ctor f, (pid, ctor) ∈ registry → (config pid).enabled = true →
        ctor (config pid) = some f → f ∈ get_all_enabled_fetchers registry config := by
  have hmain := get_all_enabled_foldl config registry []
  refine ⟨by simpa [get_all_enabled_fetchers] using hmain, ?_⟩
  intro pid ctor f hmem hen hsome
  have : f ∈ registry.filterMap (fun entry =>
      if (config entry.1).enabled then entry.2 (config entry.1) else none) :=
    List.mem_filterMap.mpr ⟨(pid, ctor), hmem, by simp [hen, hsome]⟩
  simpa [get_all_enabled_fetchers, hmain] using this

/-- Witness for C5: in a registry where platform "a" has a throwing
constructor and platform "b" constructs the value 7, the result still
contains 7. -/
theorem get_all_enabled_fetchers_isolation_witness :
    7 ∈ get_all_enabled_fetchers
        [("a", fun _ => (none : Option Nat)), ("b", fun _ => some 7)]
        (fun _ => { enabled := true }) :=
  (get_all_enabled_fetchers_isolation
      [("a", fun _ => (none : Option Nat)), ("b", fun _ => some 7)]
      (fun _ => { enabled := true })).2
    "b" (fun _ => some 7) 7
    (List.mem_cons_of_mem _ (List.mem_cons_self _ _)) rfl rfl

/-- C6: `is_enabled` returns false whenever the configured sub-source list is
empty, regardless of the `enabled` flag. -/
theorem is_enabled_false_of_empty_subreddits (config : PlatformConfig)
    (h : config.subreddits = []) :
    is_enabled (mkRedditFetcher config) = false := by
  simp [is_enabled, mkRedditFetcher, h]

/-- Witness for C6 at the configuration `{enabled := true, subreddits := []}`. -/
theorem is_enabled_false_of_empty_subreddits_witness :
    is_enabled (mkRedditFetcher { enabled := true, subreddits := [] }) = false :=
  is_enabled_false_of_empty_subreddits { enabled := true, subreddits := [] } rfl

/-- C9: when the reddit platform's configuration has `enabled: true` but an
empty subreddit list, `get_all_enabled_fetchers` still returns its fetcher —
the registry filters on the raw enabled flag only — even though that
fetcher's own `is_enabled` is false. -/
theorem get_all_enabled_ignores_is_enabled (config : String → PlatformConfig)
    (hen : (config "reddit").enabled = true)
    (hsub : (config "reddit").subreddits = []) :
    mkRedditFetcher (config "reddit") ∈ get_all_enabled_fetchers PLATFORM_REGISTRY config
    ∧ is_enabled (mkRedditFetcher (config "reddit")) = false := by
  constructor
  · simp [get_all_enabled_fetchers, PLATFORM_REGISTRY, hen]
  · simp [is_enabled, mkRedditFetcher, hsub]

/-- Witness for C9 at the configuration mapping every platform to
`{enabled := true, subreddits := []}`. -/
theorem get_all_enabled_ignores_is_enabled_witness :
    mkRedditFetcher ((fun _ => ({ enabled := true, subreddits := [] } : PlatformConfig)) "reddit")
      ∈ get_all_enabled_fetchers PLATFORM_REGISTRY
          (fun _ => ({ enabled := true, subreddits := [] } : PlatformConfig))
    ∧ is_enabled (mkRedditFetcher ((fun _ =>
        ({ enabled := true, subreddits := [] } : PlatformConfig)) "reddit")) = false :=
  get_all_enabled_ignores_is_enabled
    (fun _ => ({ enabled := true, subreddits := [] } : PlatformConfig)) rfl rfl

/-! ### Association-list lemmas -/

theorem alookup_append_some {β : Type} {l₁ : List (String × β)} {i : String} {w : β}
    (l₂ : List (String × β)) (h : alookup l₁ i = some w) :
    alookup (l₁ ++ l₂) i = some w := by
  induction l₁ with
  | nil => simp [alookup] at h
  | cons kv rest ih =>
    obtain ⟨k, v⟩ := kv
    by_cases hk : k = i
    · simp only [alookup, hk, if_true, Option.some.injEq] at h
      simp [alookup, hk, h]
    · simp only [alookup, hk, if_false] at h
      simpa [alookup, hk] using ih h

theorem alookup_append_none {β : Type} {l₁ : List (String × β)} {i : String}
    (l₂ : List (String × β)) (h : alookup l₁ i = none) :
    alookup (l₁ ++ l₂) i = alookup l₂ i := by
  induction l₁ with
  | nil => simp
  | cons kv rest ih =>
    obtain ⟨k, v⟩ := kv
    by_cases hk : k = i
    · simp [alookup, hk] at h
    · simp only [alookup, hk, if_false] at h
      simpa [alookup, hk] using ih h

theorem alookup_none_iff_not_mem_keys {β : Type} {l : List (String × β)} {i : String} :
    alookup l i = none ↔ i ∉ l.map Prod.fst := by
  induction l with
  | nil => simp [alookup]
  | cons kv rest ih =>
    obtain ⟨k, v⟩ := kv
    by_cases hk : k = i
    · subst hk
      simp [alookup]
    · simp only [alookup, hk, if_false, List.map_cons, List.mem_cons, not_or]
      rw [ih]
      have hik : ¬i = k := fun hh => hk hh.symm
      tauto

theorem mem_of_alookup_eq_some {β : Type} {l : List (String × β)} {i : String} {v : β}
    (h : alookup l i = some v) : (i, v) ∈ l := by
  induction l with
  | nil => simp [alookup] at h
  | cons kv rest ih =>
    obtain ⟨k, w⟩ := kv
    by_cases hk : k = i
    · simp only [alookup, hk, if_true, Option.some.injEq] at h
      subst hk h
      exact List.mem_cons_self _ _
    · simp only [alookup, hk, if_false] at h
      exact List.mem_cons_of_mem _ (ih h)

theorem alookup_areplace_ne {β : Type} (l : List (String × β)) {i k : String}
    (w : β) (h : i ≠ k) : alookup (areplace l k w) i = alookup l i := by
  induction l with
  | nil => simp [areplace]
  | cons kv rest ih =>
    obtain ⟨k', v⟩ := kv
    by_cases hk : k' = k
    · subst hk
      have hki : ¬k' = i := fun hh => h hh.symm
      simp [areplace, alookup, hki]
    · by_cases hki : k' = i <;> simp [areplace, alookup, hk, hki, ih, h]

theorem alookup_areplace_eq {β : Type} {l : List (String × β)} {k : String} {v : β}
    (w : β) (h : alookup l k = some v) : alookup (areplace l k w) k = some w := by
  induction l with
  | nil => simp [alookup] at h
  | cons kv rest ih =>
    obtain ⟨k', v'⟩ := kv
    by_cases hk : k' = k
    · simp [areplace, alookup, hk]
    · simp only [alookup, hk, if_false] at h
      simp [areplace, alookup, hk, ih h]

theorem mem_areplace {β : Type} {l : List (String × β)} {k : String} {w : β}
    {x : String × β} (h : x ∈ areplace l k w) : x ∈ l ∨ x = (k, w) := by
  induction l with
  | nil => simp [areplace] at h
  | cons kv rest ih =>
    obtain ⟨k', v⟩ := kv
    by_cases hk : k' = k
    · subst hk
      simp only [areplace, if_true] at h
      rcases List.mem_cons.mp h with h | h
      · exact Or.inr h
      · exact Or.inl (List.mem_cons_of_mem _ h)
    · simp only [areplace, hk, if_false] at h
      rcases List.mem_cons.mp h with h | h
      · exact Or.inl (h ▸ List.mem_cons_self _ _)
      · rcases ih h with h | h
        · exact Or.inl (List.mem_cons_of_mem _ h)
        · exact Or.inr h

theorem map_fst_areplace {β : Type} (l : List (String × β)) (k : String) (w : β) :
    (areplace l k w).map Prod.fst = l.map Prod.fst := by
  induction l with
  | nil => simp [areplace]
  | cons kv rest ih =>
    obtain ⟨k', v⟩ := kv
    by_cases hk : k' = k <;> simp [areplace, hk, ih]

/-! ### Merge/deduplicate lemmas -/

/-- Effect of processing one post on the record the dict stores at id `i`. -/
def dstep (i : String) (acc : Option Post) (p : Post) : Option Post :=
  if p.id = i then
    match acc with
    | none => some p
    | some q => if p.upvotes > q.upvotes then some p else some q
  else acc

/-- The record surviving a left-to-right scan under strictly-greater
replacement, starting from `q`. -/
def pickMax : Post → List Post → Post
  | q, [] => q
  | q, p :: rest => pickMax (if p.upvotes > q.upvotes then p else q) rest

/-- Maximum of a list of scores (0 for an empty list, which never occurs in
the claims). -/
def maxScore : List Int → Int
  | [] => 0
  | s :: rest => rest.foldl max s

theorem alookup_insertPost (seen : List (String × Post)) (p : Post) (i : String) :
    alookup (insertPost seen p) i = dstep i (alookup seen i) p := by
  cases h : alookup seen p.id with
  | none =>
    by_cases hpi : p.id = i
    · subst hpi
      simp [insertPost, h, dstep, alookup_append_none _ h, alookup]
    · have hip : i ≠ p.id := fun hh => hpi hh.symm
      cases hi : alookup seen i with
      | none => simp [insertPost, h, dstep, hpi, alookup_append_none _ hi, alookup, hip]
      | some w => simp [insertPost, h, dstep, hpi, alookup_append_some _ hi]
  | some q =>
    by_cases hgt : p.upvotes > q.upvotes
    · by_cases hpi : p.id = i
      · subst hpi
        simp [insertPost, h, dstep, hgt, alookup_areplace_eq p h]
      · have hip : i ≠ p.id := fun hh => hpi hh.symm
        simp [insertPost, h, dstep, hgt, hpi, alookup_areplace_ne seen p hip]
    · by_cases hpi : p.id = i
      · subst hpi
        simp [insertPost, h, dstep, hgt]
      · simp [insertPost, h, dstep, hgt, hpi]

theorem alookup_foldl_insertPost (i : String) :
    ∀ (ps : List Post) (seen : List (String × Post)),
      alookup (ps.foldl insertPost seen) i = ps.foldl (dstep i) (alookup seen i)
  | [], _ => rfl
  | p :: rest, seen => by
    simp only [List.foldl_cons]
    rw [alookup_foldl_insertPost i rest (insertPost seen p), alookup_insertPost]

theorem foldl_dstep_filter (i : String) :
    ∀ (ps : List Post) (acc : Option Post),
      ps.foldl (dstep i) acc = (ps.filter (fun p => decide (p.id = i))).foldl (dstep i) acc
  | [], _ => rfl
  | p :: rest, acc => by
    by_cases hpi : p.id = i
    · rw [List.foldl_cons, List.filter_cons, if_pos (by simpa using hpi), List.foldl_cons]
      exact foldl_dstep_filter i rest (dstep i acc p)
    · have hd : dstep i acc p = acc := by simp [dstep, hpi]
      rw [List.foldl_cons, List.filter_cons, if_neg (by simpa using hpi), hd]
      exact foldl_dstep_filter i rest acc

theorem foldl_dstep_some (i : String) :
    ∀ (ps : List Post) (q : Post), (∀ p ∈ ps, p.id = i) →
      ps.foldl (dstep i) (some q) = some (pickMax q ps)
  | [], _, _ => rfl
  | p :: rest, q, h => by
    have hp : p.id = i := h p (List.mem_cons_self _ _)
    have hd : dstep i (some q) p = some (if p.upvotes > q.upvotes then p else q) := by
      by_cases hgt : p.upvotes > q.upvotes <;> simp [dstep, hp, hgt]
    rw [List.foldl_cons, hd, pickMax]
    exact foldl_dstep_some i rest _ (fun r hr => h r (List.mem_cons_of_mem _ hr))

theorem pickMax_upvotes : ∀ (ps : List Post) (q : Post),
    (pickMax q ps).upvotes = ps.foldl (fun m p => max m p.upvotes) q.upvotes
  | [], _ => rfl
  | p :: rest, q => by
    rw [pickMax, List.foldl_cons, pickMax_upvotes rest _]
    have hm : (if p.upvotes > q.upvotes then p else q).upvotes = max q.upvotes p.upvotes := by
      by_cases hgt : p.upvotes > q.upvotes <;> simp only [hgt, if_true, if_false] <;> omega
    rw [hm]

theorem insertPost_keyed {seen : List (String × Post)} (p : Post)
    (h : ∀ kv ∈ seen, kv.1 = kv.2.id) :
    ∀ kv ∈ insertPost seen p, kv.1 = kv.2.id := by
  intro kv hkv
  cases hl : alookup seen p.id with
  | none =>
    simp only [insertPost, hl] at hkv
    rcases List.mem_append.mp hkv with h1 | h1
    · exact h kv h1
    · simp only [List.mem_singleton] at h1
      subst h1
      rfl
  | some q =>
    by_cases hgt : p.upvotes > q.upvotes
    · simp only [insertPost, hl, hgt, if_true] at hkv
      rcases mem_areplace hkv with h1 | h1
      · exact h kv h1
      · subst h1
        rfl
    · simp only [insertPost, hl, hgt, if_false] at hkv
      exact h kv hkv

theorem insertPost_nodupkeys {seen : List (String × Post)} (p : Post)
    (h : (seen.map Prod.fst).Nodup) :
    ((insertPost seen p).map Prod.fst).Nodup := by
  cases hl : alookup seen p.id with
  | none =>
    have hnm : p.id ∉ seen.map Prod.fst := alookup_none_iff_not_mem_keys.mp hl
    simp only [insertPost, hl, List.map_append]
    simp [List.nodup_append, h, hnm]
  | some q =>
    by_cases hgt : p.upvotes > q.upvotes
    · simpa only [insertPost, hl, hgt, if_true, map_fst_areplace] using h
    · simpa only [insertPost, hl, hgt, if_false] using h

theorem foldl_insertPost_keyed :
    ∀ (ps : List Post) (seen : List (String × Post)),
      (∀ kv ∈ seen, kv.1 = kv.2.id) →
      ∀ kv ∈ ps.foldl insertPost seen, kv.1 = kv.2.id
  | [], _, h => h
  | p :: rest, seen, h =>
    foldl_insertPost_keyed rest (insertPost seen p) (insertPost_keyed p h)

theorem foldl_insertPost_nodup :
    ∀ (ps : List Post) (seen : List (String × Post)),
      (seen.map Prod.fst).Nodup →
      ((ps.foldl insertPost seen).map Prod.fst).Nodup
  | [], _, h => h
  | p :: rest, seen, h =>
    foldl_insertPost_nodup rest (insertPost seen p) (insertPost_nodupkeys p h)

theorem filter_map_snd_eq_nil {assoc : List (String × Post)} {i : String}
    (hkey : ∀ kv ∈ assoc, kv.1 = kv.2.id)
    (hnm : i ∉ assoc.map Prod.fst) :
    (assoc.map Prod.snd).filter (fun p => decide (p.id = i)) = [] := by
  induction assoc with
  | nil => rfl
  | cons kv rest ih =>
    obtain ⟨k, v⟩ := kv
    have hk : k = v.id := hkey (k, v) (List.mem_cons_self _ _)
    simp only [List.map_cons, List.mem_cons, not_or] at hnm
    have hvi : ¬v.id = i := fun hh => hnm.1 (hk.trans hh).symm
    rw [List.map_cons, List.filter_cons, if_neg (by simpa using hvi)]
    exact ih (fun kv h => hkey kv (List.mem_cons_of_mem _ h)) hnm.2

theorem filter_map_snd_eq_toList {assoc : List (String × Post)} (i : String)
    (hkey : ∀ kv ∈ assoc, kv.1 = kv.2.id)
    (hnd : (assoc.map Prod.fst).Nodup) :
    (assoc.map Prod.snd).filter (fun p => decide (p.id = i)) = (alookup assoc i).toList := by
  induction assoc with
  | nil => rfl
  | cons kv rest ih =>
    obtain ⟨k, v⟩ := kv
    have hk : k = v.id := hkey (k, v) (List.mem_cons_self _ _)
    simp only [List.map_cons, List.nodup_cons] at hnd
    by_cases hki : k = i
    · have hvi : v.id = i := hk.symm.trans hki
      rw [List.map_cons, List.filter_cons, if_pos (by simpa using hvi)]
      have hrest : (rest.map Prod.snd).filter (fun p => decide (p.id = i)) = [] :=
        filter_map_snd_eq_nil (fun kv h => hkey kv (List.mem_cons_of_mem _ h)) (hki ▸ hnd.1)
      simp [alookup, hki, hrest]
    · have hvi : ¬v.id = i := fun hh => hki (hk.trans hh)
      rw [List.map_cons, List.filter_cons, if_neg (by simpa using hvi)]
      simp only [alookup, hki, if_false]
      exact ih (fun kv h => hkey kv (List.mem_cons_of_mem _ h)) hnd.2

/-- C3: for every pair of input lists and every id occurring in both, the
merged/deduplicated output contains exactly one record with that id, and its
upvote count is the maximum of all the upvote counts that id carries across
the two input lists. -/
theorem merge_and_deduplicate_unique_max (hot top : List Post) (i : String)
    (hh : i ∈ hot.map Post.id) (ht : i ∈ top.map Post.id) :
    ((merge_and_deduplicate hot top).filter (fun p => decide (p.id = i))).length = 1
    ∧ ∀ p ∈ merge_and_deduplicate hot top, p.id = i →
        p.upvotes = maxScore
          (((hot ++ top).filter (fun p => decide (p.id = i))).map Post.upvotes) := by
  have hkey := foldl_insertPost_keyed (hot ++ top) [] (by simp)
  have hnd := foldl_insertPost_nodup (hot ++ top) [] (by simp)
  have hlk := alookup_foldl_insertPost i (hot ++ top) []
  rw [foldl_dstep_filter] at hlk
  obtain ⟨p₀, hp₀mem, hp₀id⟩ := List.mem_map.mp hh
  have hp₀fil : p₀ ∈ (hot ++ top).filter (fun p => decide (p.id = i)) :=
    List.mem_filter.mpr ⟨List.mem_append_left _ hp₀mem, by simpa using hp₀id⟩
  cases hfps : (hot ++ top).filter (fun p => decide (p.id = i)) with
  | nil =>
    rw [hfps] at hp₀fil
    cases hp₀fil
  | cons q₀ rest =>
    have hq₀id : q₀.id = i := by
      have hm : q₀ ∈ (hot ++ top).filter (fun p => decide (p.id = i)) :=
        hfps ▸ List.mem_cons_self q₀ rest
      exact of_decide_eq_true (List.mem_filter.mp hm).2
    have hall : ∀ r ∈ rest, r.id = i := by
      intro r hr
      have hm : r ∈ (hot ++ top).filter (fun p => decide (p.id = i)) :=
        hfps ▸ List.mem_cons_of_mem q₀ hr
      exact of_decide_eq_true (List.mem_filter.mp hm).2
    rw [hfps, List.foldl_cons] at hlk
    have hd0 : dstep i (alookup ([] : List (String × Post)) i) q₀ = some q₀ := by
      simp [alookup, dstep, hq₀id]
    rw [hd0, foldl_dstep_some i rest q₀ hall] at hlk
    have hout : ((merge_and_deduplicate hot top).filter (fun p => decide (p.id = i)))
        = [pickMax q₀ rest] := by
      show ((((hot ++ top).foldl insertPost []).map Prod.snd).filter
          (fun p => decide (p.id = i))) = [pickMax q₀ rest]
      rw [filter_map_snd_eq_toList i hkey hnd, hlk]
      rfl
    refine ⟨by rw [hout]; rfl, ?_⟩
    intro p hp hpi
    have hpfil : p ∈ (merge_and_deduplicate hot top).filter (fun p => decide (p.id = i)) :=
      List.mem_filter.mpr ⟨hp, by simpa using hpi⟩
    rw [hout, List.mem_singleton] at hpfil
    subst hpfil
    rw [pickMax_upvotes]
    simp [maxScore, List.foldl_map, List.map_cons]

/-- Witness for C3: hot list with one record of id "x" and 5 upvotes, top
list with a same-id record of 9 upvotes; exactly one merged record with that
id survives. -/
theorem merge_and_deduplicate_unique_max_witness :
    ((merge_and_deduplicate
        [{ id := "x", title := "a", upvotes := 5, permalink := "", created_utc := 0,
           subreddit := "s1" }]
        [{ id := "x", title := "b", upvotes := 9, permalink := "", created_utc := 0,
           subreddit := "s2" }]).filter (fun p => decide (p.id = "x"))).length = 1 :=
  (merge_and_deduplicate_unique_max
      [{ id := "x", title := "a", upvotes := 5, permalink := "", created_utc := 0,
         subreddit := "s1" }]
      [{ id := "x", title := "b", upvotes := 9, permalink := "", created_utc := 0,
         subreddit := "s2" }] "x" (by decide) (by decide)).1

/-- C10: when an id occurs (once) in each input list with equal upvote
counts, the merged output keeps the record from the first (hot) list: a seen
record is replaced only on strictly greater upvotes. -/
theorem merge_and_deduplicate_tie_keeps_first (hot top : List Post) (i : String)
    (p q : Post)
    (hh : hot.filter (fun r => decide (r.id = i)) = [p])
    (ht : top.filter (fun r => decide (r.id = i)) = [q])
    (heq : q.upvotes = p.upvotes) :
    (merge_and_deduplicate hot top).filter (fun r => decide (r.id = i)) = [p] := by
  have hpfil : (hot ++ top).filter (fun r => decide (r.id = i)) = [p, q] := by
    rw [List.filter_append, hh, ht]
    rfl
  have hpmem : p ∈ hot.filter (fun r => decide (r.id = i)) := hh ▸ List.mem_cons_self p []
  have hqmem : q ∈ top.filter (fun r => decide (r.id = i)) := ht ▸ List.mem_cons_self q []
  have hpid : p.id = i := by simpa using (List.mem_filter.mp hpmem).2
  have hqid : q.id = i := by simpa using (List.mem_filter.mp hqmem).2
  have hkey := foldl_insertPost_keyed (hot ++ top) [] (by simp)
  have hnd := foldl_insertPost_nodup (hot ++ top) [] (by simp)
  have hlk := alookup_foldl_insertPost i (hot ++ top) []
  rw [foldl_dstep_filter, hpfil] at hlk
  have hcomp : ([p, q]).foldl (dstep i) (alookup ([] : List (String × Post)) i) = some p := by
    simp [alookup, dstep, hpid, hqid, heq]
  rw [hcomp] at hlk
  show (((hot ++ top).foldl insertPost []).map Prod.snd).filter
      (fun r => decide (r.id = i)) = [p]
  rw [filter_map_snd_eq_toList i hkey hnd, hlk]
  rfl

/-- Witness for C10: two records with id "x" and equal upvotes; the hot-list
record (title "a") survives the merge. -/
theorem merge_and_deduplicate_tie_keeps_first_witness :
    (merge_and_deduplicate
        [{ id := "x", title := "a", upvotes := 7, permalink := "", created_utc := 0,
           subreddit := "s1" }]
        [{ id := "x", title := "b", upvotes := 7, permalink := "", created_utc := 0,
           subreddit := "s2" }]).filter (fun r => decide (r.id = "x"))
      = [{ id := "x", title := "a", upvotes := 7, permalink := "", created_utc := 0,
           subreddit := "s1" }] :=
  merge_and_deduplicate_tie_keeps_first
    [{ id := "x", title := "a", upvotes := 7, permalink := "", created_utc := 0,
       subreddit := "s1" }]
    [{ id := "x", title := "b", upvotes := 7, permalink := "", created_utc := 0,
       subreddit := "s2" }] "x"
    { id := "x", title := "a", upvotes := 7, permalink := "", created_utc := 0,
      subreddit := "s1" }
    { id := "x", title := "b", upvotes := 7, permalink := "", created_utc := 0,
      subreddit := "s2" }
    (by decide) (by decide) (by decide)

/-! ### Rank-normalization lemmas -/

/-- The ranks assigned to title `t` while the enumeration loop scans `ps`
with the rank counter starting at `rank`. -/
def titleRanks : List Post → String → Nat → List Nat
  | [], _, _ => []
  | p :: rest, t, rank =>
    if p.title = t then rank :: titleRanks rest t (rank + 1)
    else titleRanks rest t (rank + 1)

theorem titleRanks_append (t : String) :
    ∀ (xs ys : List Post) (r : Nat),
      titleRanks (xs ++ ys) t r = titleRanks xs t r ++ titleRanks ys t (r + xs.length)
  | [], ys, r => by simp [titleRanks]
  | x :: xs, ys, r => by
    have ih := titleRanks_append t xs ys (r + 1)
    have harith : r + 1 + xs.length = r + (xs.length + 1) := by omega
    by_cases hx : x.title = t
    · simp only [List.cons_append, titleRanks, hx, if_true, List.append_eq, ih, harith,
        List.length_cons]
    · simp only [List.cons_append, titleRanks, hx, if_false, List.append_eq, ih, harith,
        List.length_cons]

/-- Characterization of the result dict's rank lists: the entry stored for
title `t` after the loop holds the previous ranks followed by the ranks
assigned to `t` while scanning `ps`. -/
theorem entryRanks_transformAux :
    ∀ (ps : List Post) (result : List (String × Entry)) (rank : Nat) (t : String),
      entryRanks (transformAux ps result rank) t
        = entryRanks result t ++ titleRanks ps t rank
  | [], result, rank, t => by simp [transformAux, titleRanks]
  | p :: rest, result, rank, t => by
    cases hl : alookup result p.title with
    | some e =>
      have hstep : transformAux (p :: rest) result rank
          = transformAux rest
              (areplace result p.title { e with ranks := e.ranks ++ [rank] }) (rank + 1) := by
        simp [transformAux, hl]
      rw [hstep, entryRanks_transformAux rest _ (rank + 1) t]
      by_cases hpt : p.title = t
      · subst hpt
        have h1 : entryRanks
            (areplace result p.title { e with ranks := e.ranks ++ [rank] }) p.title
            = e.ranks ++ [rank] := by
          simp [entryRanks, alookup_areplace_eq _ hl]
        rw [h1]
        simp [entryRanks, hl, titleRanks, List.append_assoc]
      · have hne : t ≠ p.title := fun hh => hpt hh.symm
        have h1 : entryRanks
            (areplace result p.title { e with ranks := e.ranks ++ [rank] }) t
            = entryRanks result t := by
          simp [entryRanks, alookup_areplace_ne result _ hne]
        rw [h1]
        simp [titleRanks, hpt]
    | none =>
      have hstep : transformAux (p :: rest) result rank
          = transformAux rest
              (result ++ [(p.title,
                { ranks := [rank], url := postUrl p, mobileUrl := postUrl p })]) (rank + 1) := by
        simp [transformAux, hl]
      rw [hstep, entryRanks_transformAux rest _ (rank + 1) t]
      by_cases hpt : p.title = t
      · subst hpt
        have h1 : entryRanks
            (result ++ [(p.title,
              { ranks := [rank], url := postUrl p, mobileUrl := postUrl p })]) p.title
            = [rank] := by
          rw [entryRanks, alookup_append_none _ hl]
          simp [alookup]
        rw [h1]
        simp [entryRanks, hl, titleRanks]
      · have h1 : entryRanks
            (result ++ [(p.title,
              { ranks := [rank], url := postUrl p, mobileUrl := postUrl p })]) t
            = entryRanks result t := by
          cases ht : alookup result t with
          | some w => simp [entryRanks, alookup_append_some _ ht, ht]
          | none =>
            rw [entryRanks, alookup_append_none _ ht]
            simp [alookup, entryRanks, hpt, ht]
        rw [h1]
        simp [titleRanks, hpt]

/-- The rank `r + i` is always assigned to the title of the post at position
`i` of the scanned list. -/
theorem mem_titleRanks_get :
    ∀ (ps : List Post) (i : Nat) (h : i < ps.length) (r : Nat),
      r + i ∈ titleRanks ps ((ps.get ⟨i, h⟩).title) r
  | p :: rest, 0, _, r => by simp [titleRanks]
  | p :: rest, Nat.succ i, h, r => by
    have hlt : i < rest.length := Nat.lt_of_succ_lt_succ h
    have ih := mem_titleRanks_get rest i hlt (r + 1)
    have harith : r + (i + 1) = r + 1 + i := by omega
    have hget : ((p :: rest).get ⟨i + 1, h⟩) = rest.get ⟨i, hlt⟩ := rfl
    rw [hget, harith]
    by_cases hp : p.title = (rest.get ⟨i, hlt⟩).title
    · simp only [titleRanks, hp, if_true]
      exact List.mem_cons_of_mem _ ih
    · simp only [titleRanks, hp, if_false]
      exact ih

theorem flattenRanks_cons (k : String) (e : Entry) (rest : List (String × Entry)) :
    flattenRanks ((k, e) :: rest) = e.ranks ++ flattenRanks rest := by
  simp [flattenRanks]

theorem flattenRanks_append_singleton (result : List (String × Entry)) (k : String)
    (e : Entry) :
    flattenRanks (result ++ [(k, e)]) = flattenRanks result ++ e.ranks := by
  simp [flattenRanks]

theorem flattenRanks_areplace {result : List (String × Entry)} {t : String} {e : Entry}
    (rank : Nat) (hl : alookup result t = some e) :
    (flattenRanks (areplace result t { e with ranks := e.ranks ++ [rank] })).Perm
      (flattenRanks result ++ [rank]) := by
  induction result with
  | nil => simp [alookup] at hl
  | cons kv rest ih =>
    obtain ⟨k, v⟩ := kv
    by_cases hk : k = t
    · simp only [alookup, hk, if_true, Option.some.injEq] at hl
      subst hl
      simp only [areplace, hk, if_true, flattenRanks_cons]
      rw [List.append_assoc, List.append_assoc]
      exact List.Perm.append_left _ List.perm_append_comm
    · simp only [alookup, hk, if_false] at hl
      simp only [areplace, hk, if_false, flattenRanks_cons]
      rw [List.append_assoc]
      exact List.Perm.append_left _ (ih hl)

/-- The ranks collected across the whole result dict are, up to permutation,
the previous ranks followed by the consecutive block assigned while scanning
`ps`. -/
theorem flattenRanks_transformAux :
    ∀ (ps : List Post) (result : List (String × Entry)) (rank : Nat),
      (flattenRanks (transformAux ps result rank)).Perm
        (flattenRanks result ++ List.range' rank ps.length)
  | [], result, rank => by simp [transformAux]
  | p :: rest, result, rank => by
    have hr : List.range' rank (p :: rest).length
        = rank :: List.range' (rank + 1) rest.length := rfl
    cases hl : alookup result p.title with
    | some e =>
      have hstep : transformAux (p :: rest) result rank
          = transformAux rest
              (areplace result p.title { e with ranks := e.ranks ++ [rank] }) (rank + 1) := by
        simp [transformAux, hl]
      rw [hstep, hr]
      refine (flattenRanks_transformAux rest _ (rank + 1)).trans ?_
      refine (List.Perm.append_right _ (flattenRanks_areplace rank hl)).trans ?_
      rw [List.append_assoc]
      rfl
    | none =>
      have hstep : transformAux (p :: rest) result rank
          = transformAux rest
              (result ++ [(p.title,
                { ranks := [rank], url := postUrl p, mobileUrl := postUrl p })]) (rank + 1) := by
        simp [transformAux, hl]
      rw [hstep, hr]
      refine (flattenRanks_transformAux rest _ (rank + 1)).trans ?_
      rw [flattenRanks_append_singleton, List.append_assoc]
      rfl

/-- With pairwise-distinct titles and all titles fresh, every post creates a
fresh entry, so the dict grows by exactly one entry per post. -/
theorem length_transformAux :
    ∀ (ps : List Post) (result : List (String × Entry)) (rank : Nat),
      ((ps.map Post.title).Nodup) →
      (∀ p ∈ ps, alookup result p.title = none) →
      (transformAux ps result rank).length = result.length + ps.length
  | [], result, rank, _, _ => by simp [transformAux]
  | p :: rest, result, rank, hnd, hfresh => by
    simp only [List.map_cons, List.nodup_cons] at hnd
    have hl : alookup result p.title = none := hfresh p (List.mem_cons_self _ _)
    have hstep : transformAux (p :: rest) result rank
        = transformAux rest
            (result ++ [(p.title,
              { ranks := [rank], url := postUrl p, mobileUrl := postUrl p })]) (rank + 1) := by
      simp [transformAux, hl]
    have hfresh' : ∀ q ∈ rest, alookup
        (result ++ [(p.title,
          { ranks := [rank], url := postUrl p, mobileUrl := postUrl p })]) q.title = none := by
      intro q hq
      have h1 : alookup result q.title = none := hfresh q (List.mem_cons_of_mem _ hq)
      rw [alookup_append_none _ h1]
      have hne : ¬p.title = q.title := fun hh =>
        hnd.1 (hh ▸ List.mem_map_of_mem Post.title hq)
      simp [alookup, hne]
    rw [hstep, length_transformAux rest _ (rank + 1) hnd.2 hfresh']
    simp only [List.length_append, List.length_singleton, List.length_cons, List.length_nil]
    omega

/-- Every entry of the result dict carries the url (and identical mobileUrl)
computed by `postUrl` from some scanned post with that title, unless it was
already present in the initial dict. -/
theorem transformAux_entry_url :
    ∀ (ps : List Post) (result : List (String × Entry)) (rank : Nat) (t : String)
      (e : Entry), (t, e) ∈ transformAux ps result rank →
      (∃ e₀, (t, e₀) ∈ result ∧ e.url = e₀.url ∧ e.mobileUrl = e₀.mobileUrl)
      ∨ ∃ p, p ∈ ps ∧ p.title = t ∧ e.url = postUrl p ∧ e.mobileUrl = postUrl p
  | [], result, rank, t, e, h => by
    exact Or.inl ⟨e, by simpa [transformAux] using h, rfl, rfl⟩
  | p :: rest, result, rank, t, e, h => by
    cases hl : alookup result p.title with
    | some e₁ =>
      have hstep : transformAux (p :: rest) result rank
          = transformAux rest
              (areplace result p.title { e₁ with ranks := e₁.ranks ++ [rank] }) (rank + 1) := by
        simp [transformAux, hl]
      rw [hstep] at h
      rcases transformAux_entry_url rest _ (rank + 1) t e h with
        ⟨e₀, he₀, hu, hm⟩ | ⟨q, hq, hqt, hu, hm⟩
      · rcases mem_areplace he₀ with hmem | heq
        · exact Or.inl ⟨e₀, hmem, hu, hm⟩
        · have ht : t = p.title := congrArg Prod.fst heq
          have he₀w : e₀ = { e₁ with ranks := e₁.ranks ++ [rank] } := congrArg Prod.snd heq
          have hm1 : (p.title, e₁) ∈ result := mem_of_alookup_eq_some hl
          exact Or.inl ⟨e₁, ht ▸ hm1, by rw [hu, he₀w], by rw [hm, he₀w]⟩
      · exact Or.inr ⟨q, List.mem_cons_of_mem _ hq, hqt, hu, hm⟩
    | none =>
      have hstep : transformAux (p :: rest) result rank
          = transformAux rest
              (result ++ [(p.title,
                { ranks := [rank], url := postUrl p, mobileUrl := postUrl p })]) (rank + 1) := by
        simp [transformAux, hl]
      rw [hstep] at h
      rcases transformAux_entry_url rest _ (rank + 1) t e h with
        ⟨e₀, he₀, hu, hm⟩ | ⟨q, hq, hqt, hu, hm⟩
      · rcases List.mem_append.mp he₀ with hmem | hsing
        · exact Or.inl ⟨e₀, hmem, hu, hm⟩
        · simp only [List.mem_singleton] at hsing
          have ht : t = p.title := congrArg Prod.fst hsing
          have he₀w : e₀ = { ranks := [rank], url := postUrl p, mobileUrl := postUrl p } :=
            congrArg Prod.snd hsing
          refine Or.inr ⟨p, List.mem_cons_self _ _, ht.symm, ?_, ?_⟩
          · rw [hu, he₀w]
          · rw [hm, he₀w]
      · exact Or.inr ⟨q, List.mem_cons_of_mem _ hq, hqt, hu, hm⟩

/-- Decomposition of a two-element sublist. -/
theorem pair_sublist_decomp {α : Type} {p q : α} :
    ∀ {l : List α}, ([p, q]).Sublist l → ∃ m₁ m₂ m₃, l = m₁ ++ p :: m₂ ++ q :: m₃ := by
  intro l h
  induction l with
  | nil => simp at h
  | cons a l ih =>
    cases h with
    | cons =>
      rename_i h1
      obtain ⟨m₁, m₂, m₃, rfl⟩ := ih h1
      exact ⟨a :: m₁, m₂, m₃, rfl⟩
    | cons₂ =>
      rename_i h1
      obtain ⟨s, u, hsu⟩ := List.append_of_mem (List.singleton_sublist.mp h1)
      exact ⟨[], s, u, by rw [hsu]; simp⟩

/-- The descending-upvotes comparison is transitive. -/
theorem upvotesDescLE_trans : ∀ (a b c : Post),
    (fun a b => decide (b.upvotes ≤ a.upvotes)) a b →
    (fun a b => decide (b.upvotes ≤ a.upvotes)) b c →
    (fun a b => decide (b.upvotes ≤ a.upvotes)) a c := by
  intro a b c hab hbc
  simp only [decide_eq_true_eq] at *
  omega

/-- The descending-upvotes comparison is total. -/
theorem upvotesDescLE_total : ∀ (a b : Post),
    ((fun a b => decide (b.upvotes ≤ a.upvotes)) a b
      || (fun a b => decide (b.upvotes ≤ a.upvotes)) b a) = true := by
  intro a b
  simp only [Bool.or_eq_true, decide_eq_true_eq]
  omega

/-- C2: for every non-empty post list, rank normalization assigns the ranks
1..N as a bijection with the positions of the upvote-descending sorted list:
the collected ranks are a permutation of 1..N (no gaps or repeats), rank i+1
lands in the entry of the title at sorted position i, and two records with
equal upvotes keep their original relative order in the sorted sequence
(stable sort), so insertion order determines their rank order. -/
theorem transform_rank_bijection (posts : List Post) (hne : posts ≠ []) :
    (flattenRanks (transform_to_trendradar_format posts)).Perm
        (List.range' 1 posts.length)
    ∧ (∀ (i : Nat) (h : i < (sortByUpvotesDesc posts).length),
        i + 1 ∈ entryRanks (transform_to_trendradar_format posts)
            (((sortByUpvotesDesc posts).get ⟨i, h⟩).title))
    ∧ ∀ (p q : Post) (l₁ l₂ l₃ : List Post),
        posts = l₁ ++ p :: l₂ ++ q :: l₃ → p.upvotes = q.upvotes →
        ∃ m₁ m₂ m₃, sortByUpvotesDesc posts = m₁ ++ p :: m₂ ++ q :: m₃ := by
  refine ⟨?_, ?_, ?_⟩
  · have h := flattenRanks_transformAux (sortByUpvotesDesc posts) [] 1
    have hlen : (sortByUpvotesDesc posts).length = posts.length := by
      simp [sortByUpvotesDesc]
    simpa [transform_to_trendradar_format, flattenRanks, hlen] using h
  · intro i h
    have h1 := entryRanks_transformAux (sortByUpvotesDesc posts) [] 1
        (((sortByUpvotesDesc posts).get ⟨i, h⟩).title)
    have h2 := mem_titleRanks_get (sortByUpvotesDesc posts) i h 1
    show i + 1 ∈ entryRanks (transformAux (sortByUpvotesDesc posts) [] 1)
        (((sortByUpvotesDesc posts).get ⟨i, h⟩).title)
    rw [h1]
    simpa [entryRanks, alookup, Nat.add_comm] using h2
  · intro p q l₁ l₂ l₃ hdec heq
    have hp1 : ([p]).Sublist (l₁ ++ p :: l₂) :=
      List.singleton_sublist.mpr (List.mem_append_right _ (List.mem_cons_self _ _))
    have hq1 : ([q]).Sublist (q :: l₃) :=
      List.singleton_sublist.mpr (List.mem_cons_self _ _)
    have h3 : ([p, q]).Sublist posts := by
      rw [hdec]
      exact List.Sublist.append hp1 hq1
    have hle : (fun a b => decide (b.upvotes ≤ a.upvotes)) p q = true := by
      simp [heq]
    have h4 := List.pair_sublist_mergeSort upvotesDescLE_trans upvotesDescLE_total hle h3
    exact pair_sublist_decomp h4

/-- Witness for C2 on two records, the lower-scored one second. -/
theorem transform_rank_bijection_witness :
    (flattenRanks (transform_to_trendradar_format
        [{ id := "a", title := "A", upvotes := 9, permalink := "", created_utc := 0,
           subreddit := "s" },
         { id := "b", title := "B", upvotes := 3, permalink := "", created_utc := 0,
           subreddit := "s" }])).Perm (List.range' 1 2) :=
  (transform_rank_bijection
      [{ id := "a", title := "A", upvotes := 9, permalink := "", created_utc := 0,
         subreddit := "s" },
       { id := "b", title := "B", upvotes := 3, permalink := "", created_utc := 0,
         subreddit := "s" }] (by decide)).1

/-- C8: if the sorted sequence contains two posts sharing a title (here from
different subreddits), that title's entry contains both assigned ranks, in
the order encountered in the sorted sequence, so its rank list has length at
least 2. -/
theorem transform_repeated_title_ranks (posts : List Post) (p q : Post)
    (m₁ m₂ m₃ : List Post)
    (hdec : sortByUpvotesDesc posts = m₁ ++ p :: m₂ ++ q :: m₃)
    (htitle : p.title = q.title) (hsub : p.subreddit ≠ q.subreddit) :
    ([m₁.length + 1, m₁.length + m₂.length + 2]).Sublist
        (entryRanks (transform_to_trendradar_format posts) p.title)
    ∧ 2 ≤ (entryRanks (transform_to_trendradar_format posts) p.title).length := by
  have hmain : entryRanks (transform_to_trendradar_format posts) p.title
      = titleRanks (sortByUpvotesDesc posts) p.title 1 := by
    show entryRanks (transformAux (sortByUpvotesDesc posts) [] 1) p.title = _
    rw [entryRanks_transformAux]
    simp [entryRanks, alookup]
  rw [hmain, hdec, titleRanks_append p.title (m₁ ++ p :: m₂) (q :: m₃) 1,
      titleRanks_append p.title m₁ (p :: m₂) 1]
  have e1 : 1 + m₁.length = m₁.length + 1 := by omega
  have e4 : 1 + (m₁ ++ p :: m₂).length = m₁.length + m₂.length + 2 := by
    simp only [List.length_append, List.length_cons]
    omega
  rw [e1, e4]
  rw [show titleRanks (p :: m₂) p.title (m₁.length + 1)
      = (m₁.length + 1) :: titleRanks m₂ p.title (m₁.length + 1 + 1) from by
    simp [titleRanks]]
  rw [show titleRanks (q :: m₃) p.title (m₁.length + m₂.length + 2)
      = (m₁.length + m₂.length + 2)
          :: titleRanks m₃ p.title (m₁.length + m₂.length + 2 + 1) from by
    have hq : q.title = p.title := htitle.symm
    simp [titleRanks, hq]]
  have hp1 : ([m₁.length + 1]).Sublist (titleRanks m₁ p.title 1
      ++ ((m₁.length + 1) :: titleRanks m₂ p.title (m₁.length + 1 + 1))) :=
    List.singleton_sublist.mpr (List.mem_append_right _ (List.mem_cons_self _ _))
  have hq1 : ([m₁.length + m₂.length + 2]).Sublist ((m₁.length + m₂.length + 2)
      :: titleRanks m₃ p.title (m₁.length + m₂.length + 2 + 1)) :=
    List.singleton_sublist.mpr (List.mem_cons_self _ _)
  have hfin := List.Sublist.append hp1 hq1
  exact ⟨hfin, by simpa using hfin.length_le⟩

/-- Witness for C8: two posts with the same title "T" from subreddits "s1"
and "s2", upvotes 5 and 3; the entry for "T" holds ranks 1 and 2. -/
theorem transform_repeated_title_ranks_witness :
    ([1, 2]).Sublist
        (entryRanks (transform_to_trendradar_format
          [{ id := "1", title := "T", upvotes := 5, permalink := "", created_utc := 0,
             subreddit := "s1" },
           { id := "2", title := "T", upvotes := 3, permalink := "", created_utc := 0,
             subreddit := "s2" }]) "T")
    ∧ 2 ≤ (entryRanks (transform_to_trendradar_format
          [{ id := "1", title := "T", upvotes := 5, permalink := "", created_utc := 0,
             subreddit := "s1" },
           { id := "2", title := "T", upvotes := 3, permalink := "", created_utc := 0,
             subreddit := "s2" }]) "T").length :=
  transform_repeated_title_ranks
    [{ id := "1", title := "T", upvotes := 5, permalink := "", created_utc := 0,
       subreddit := "s1" },
     { id := "2", title := "T", upvotes := 3, permalink := "", created_utc := 0,
       subreddit := "s2" }]
    { id := "1", title := "T", upvotes := 5, permalink := "", created_utc := 0,
      subreddit := "s1" }
    { id := "2", title := "T", upvotes := 3, permalink := "", created_utc := 0,
      subreddit := "s2" }
    [] [] []
    (List.mergeSort_of_sorted (by decide)) rfl (by decide)

/-- C7 counterexample: the permalink " /c/1" is non-empty and does not start
with "/", yet the produced url is not the sub-source fallback
`https://reddit.com/r/golang` — the code strips whitespace before testing. -/
theorem transform_url_counterexample :
    transform_to_trendradar_format
        [{ id := "x", title := "T", upvotes := 1, permalink := " /c/1",
           created_utc := 0, subreddit := "golang" }]
      = [("T", { ranks := [1], url := "https://reddit.com/c/1",
                 mobileUrl := "https://reddit.com/c/1" })]
    ∧ ("https://reddit.com/c/1" : String) ≠ "https://reddit.com/r/golang" := by
  constructor
  · show transformAux (sortByUpvotesDesc
        [{ id := "x", title := "T", upvotes := 1, permalink := " /c/1",
           created_utc := 0, subreddit := "golang" }]) [] 1 = _
    rw [show sortByUpvotesDesc
        [{ id := "x", title := "T", upvotes := 1, permalink := " /c/1",
           created_utc := 0, subreddit := "golang" }]
      = [{ id := "x", title := "T", upvotes := 1, permalink := " /c/1",
           created_utc := 0, subreddit := "golang" }] from
      List.mergeSort_singleton _]
    decide
  · decide

/-- C7 amended: the permalink is first stripped of surrounding whitespace;
when the stripped permalink is empty or does not start with "/", the url is
the sub-source fallback `https://reddit.com/r/{subreddit}`, and when it does
start with "/" the url is `https://reddit.com` plus the stripped permalink;
every produced entry has mobileUrl equal to url and url computed by this rule
from one of the input records bearing its title. -/
theorem transform_url_fallback (posts : List Post) :
    (∀ p : Post,
        pyStrip p.permalink = "" ∨ pyStartsWith (pyStrip p.permalink) "/" = false →
        postUrl p = "https://reddit.com/r/" ++ p.subreddit)
    ∧ (∀ p : Post, pyStartsWith (pyStrip p.permalink) "/" = true →
        postUrl p = "https://reddit.com" ++ pyStrip p.permalink)
    ∧ ∀ t e, (t, e) ∈ transform_to_trendradar_format posts →
        e.mobileUrl = e.url ∧ ∃ p, p ∈ posts ∧ p.title = t ∧ e.url = postUrl p := by
  refine ⟨?_, ?_, ?_⟩
  · intro p hp
    rcases hp with hp | hp
    · simp [postUrl, hp]
    · simp [postUrl, hp]
  · intro p hp
    have hne : pyStrip p.permalink ≠ "" := by
      intro h0
      rw [h0] at hp
      exact absurd hp (by decide)
    simp [postUrl, hp, hne]
  · intro t e hmem
    have h := transformAux_entry_url (sortByUpvotesDesc posts) [] 1 t e hmem
    rcases h with ⟨e₀, he₀, _, _⟩ | ⟨p, hp, hpt, hu, hm⟩
    · simp at he₀
    · have hp' : p ∈ posts := by
        simpa [sortByUpvotesDesc] using hp
      exact ⟨by rw [hm, hu], p, hp', hpt, hu⟩

/-- Witness for C7 (amended): a record with empty permalink and subreddit
"golang" produces the fallback url. -/
theorem transform_url_fallback_witness :
    postUrl { id := "x", title := "T", upvotes := 1, permalink := "",
              created_utc := 0, subreddit := "golang" }
      = "https://reddit.com/r/" ++ "golang" :=
  (transform_url_fallback []).1
    { id := "x", title := "T", upvotes := 1, permalink := "", created_utc := 0,
      subreddit := "golang" } (Or.inl (by decide))

/-! ### Per-endpoint fetch retry budget -/

/-- C1 counterexample: on the outcome sequence [429, error, error, success]
the code's fetch returns [] — the 429 retry consumed one of the three loop
attempts, so only three requests are ever issued — while under the spec's
independent-budget reading (429 retries the same attempt without consuming a
transport attempt) the fetch would reach the fourth response and succeed. -/
theorem fetch_rate_limit_budget_counterexample :
    fetch_subreddit_posts "golang"
        [.rateLimited none, .exn, .exn, .ok [{ title := "t", ups := 5 }]] = []
    ∧ fetch_subreddit_posts_spec "golang"
        [.rateLimited none, .exn, .exn, .ok [{ title := "t", ups := 5 }]]
      = [{ id := "", title := "t", upvotes := 5, permalink := "", created_utc := 0,
           subreddit := "golang" }] := by
  exact ⟨by decide, by decide⟩

theorem fetchLoop_take (subreddit : String) :
    ∀ (responses : List HttpOutcome) (attempt rlr : Nat),
      fetchLoop subreddit 3 2 responses attempt rlr
        = fetchLoop subreddit 3 2 (responses.take (3 - attempt)) attempt rlr
  | [], attempt, rlr => by simp
  | r :: rest, attempt, rlr => by
    by_cases ha : 3 ≤ attempt
    · have h0 : 3 - attempt = 0 := by omega
      rw [h0, List.take_zero]
      simp [fetchLoop, ha]
    · have h1 : 3 - attempt = (3 - (attempt + 1)) + 1 := by omega
      rw [h1, List.take_succ_cons]
      cases r with
      | rateLimited hdr =>
        by_cases hc : 2 < rlr + 1
        · simp [fetchLoop, ha, hc]
        · simpa [fetchLoop, ha, hc] using fetchLoop_take subreddit rest (attempt + 1) (rlr + 1)
      | ok children => simp [fetchLoop, ha]
      | exn =>
        by_cases he : attempt < 2
        · simpa [fetchLoop, ha, he] using fetchLoop_take subreddit rest (attempt + 1) rlr
        · simp [fetchLoop, ha, he]

/-- C1 amended: the rate-limit counter is separate and capped at 2 retries,
but a 429 retry is not free: the `continue` advances the `for` loop, so it
also consumes one of the 3 loop attempts — both retry kinds share the same
3-iteration budget, and an endpoint fetch never issues more than 3 requests. -/
theorem fetch_rate_limit_shares_attempt_budget :
    (∀ (subreddit : String) (h : Option Int) (rest : List HttpOutcome)
        (attempt rate_limit_retries : Nat),
      fetchLoop subreddit 3 2 (.rateLimited h :: rest) attempt rate_limit_retries
        = if 3 ≤ attempt then []
          else if 2 < rate_limit_retries + 1 then []
          else fetchLoop subreddit 3 2 rest (attempt + 1) (rate_limit_retries + 1))
    ∧ ∀ (subreddit : String) (responses : List HttpOutcome),
        fetch_subreddit_posts subreddit responses
          = fetch_subreddit_posts subreddit (responses.take 3) := by
  constructor
  · intro subreddit h rest attempt rate_limit_retries
    rfl
  · intro subreddit responses
    simpa [fetch_subreddit_posts] using fetchLoop_take subreddit responses 0 0

/-! ### fetch_all orchestration -/

/-- C4: with config `{enabled: true, subreddits: ["a","b"], posts_limit: 50}`,
where fetching sub-source "a" raises and "b" returns three records with
distinct titles, `fetch_all` returns results holding the 3 ranked entries
under "reddit" — with ranks a permutation of 1..3 — and
`failed_ids = ["reddit"]`: the exception is contained and does not prevent
processing of "b". -/
theorem fetch_all_subsource_failure_isolated
    (fetchSub : String → Option (List Post)) (p1 p2 p3 : Post)
    (ha : fetchSub "a" = none)
    (hb : fetchSub "b" = some [p1, p2, p3])
    (hd : ([p1.title, p2.title, p3.title]).Nodup) :
    (fetch_all (mkRedditFetcher
        { enabled := true, subreddits := ["a", "b"], posts_limit := 50 }) fetchSub).1
      = [("reddit", transform_to_trendradar_format [p1, p2, p3])]
    ∧ (transform_to_trendradar_format [p1, p2, p3]).length = 3
    ∧ (flattenRanks (transform_to_trendradar_format [p1, p2, p3])).Perm [1, 2, 3]
    ∧ (fetch_all (mkRedditFetcher
        { enabled := true, subreddits := ["a", "b"], posts_limit := 50 }) fetchSub).2.2
      = ["reddit"] := by
  have hmain : fetch_all (mkRedditFetcher
      { enabled := true, subreddits := ["a", "b"], posts_limit := 50 }) fetchSub
      = ([("reddit", transform_to_trendradar_format [p1, p2, p3])],
         [("reddit", "Reddit")], ["reddit"]) := by
    simp [fetch_all, mkRedditFetcher, is_enabled, platform_id, platform_name, ha, hb]
  have hlen : (transform_to_trendradar_format [p1, p2, p3]).length = 3 := by
    have hnd : (([p1, p2, p3]).map Post.title).Nodup := by simpa using hd
    have hperm : (sortByUpvotesDesc [p1, p2, p3]).Perm [p1, p2, p3] :=
      List.mergeSort_perm _ _
    have hnds : ((sortByUpvotesDesc [p1, p2, p3]).map Post.title).Nodup :=
      ((hperm.map Post.title).nodup_iff).mpr hnd
    have h := length_transformAux (sortByUpvotesDesc [p1, p2, p3]) [] 1 hnds
      (fun q _ => rfl)
    simpa [transform_to_trendradar_format, sortByUpvotesDesc] using h
  have hl3 : (sortByUpvotesDesc [p1, p2, p3]).length = 3 := by simp [sortByUpvotesDesc]
  have hperm3 : (flattenRanks (transform_to_trendradar_format [p1, p2, p3])).Perm
      [1, 2, 3] := by
    have h := flattenRanks_transformAux (sortByUpvotesDesc [p1, p2, p3]) [] 1
    have hr : List.range' 1 ((sortByUpvotesDesc [p1, p2, p3]).length) = [1, 2, 3] := by
      rw [hl3]
      rfl
    simpa [transform_to_trendradar_format, flattenRanks, hr] using h
  exact ⟨by rw [hmain], hlen, hperm3, by rw [hmain]⟩

/-- Witness for C4 at a concrete oracle: "a" raises, "b" yields three records
titled "A", "B", "C". -/
theorem fetch_all_subsource_failure_isolated_witness :
    (fetch_all (mkRedditFetcher
        { enabled := true, subreddits := ["a", "b"], posts_limit := 50 })
        (fun s => if s = "b" then some
          [{ id := "1", title := "A", upvotes := 9, permalink := "", created_utc := 0,
             subreddit := "b" },
           { id := "2", title := "B", upvotes := 5, permalink := "", created_utc := 0,
             subreddit := "b" },
           { id := "3", title := "C", upvotes := 1, permalink := "", created_utc := 0,
             subreddit := "b" }] else none)).1
      = [("reddit", transform_to_trendradar_format
          [{ id := "1", title := "A", upvotes := 9, permalink := "", created_utc := 0,
             subreddit := "b" },
           { id := "2", title := "B", upvotes := 5, permalink := "", created_utc := 0,
             subreddit := "b" },
           { id := "3", title := "C", upvotes := 1, permalink := "", created_utc := 0,
             subreddit := "b" }])]
    ∧ (transform_to_trendradar_format
          [{ id := "1", title := "A", upvotes := 9, permalink := "", created_utc := 0,
             subreddit := "b" },
           { id := "2", title := "B", upvotes := 5, permalink := "", created_utc := 0,
             subreddit := "b" },
           { id := "3", title := "C", upvotes := 1, permalink := "", created_utc := 0,
             subreddit := "b" }]).length = 3
    ∧ (flattenRanks (transform_to_trendradar_format
          [{ id := "1", title := "A", upvotes := 9, permalink := "", created_utc := 0,
             subreddit := "b" },
           { id := "2", title := "B", upvotes := 5, permalink := "", created_utc := 0,
             subreddit := "b" },
           { id := "3", title := "C", upvotes := 1, permalink := "", created_utc := 0,
             subreddit := "b" }])).Perm [1, 2, 3]
    ∧ (fetch_all (mkRedditFetcher
        { enabled := true, subreddits := ["a", "b"], posts_limit := 50 })
        (fun s => if s = "b" then some
          [{ id := "1", title := "A", upvotes := 9, permalink := "", created_utc := 0,
             subreddit := "b" },
           { id := "2", title := "B", upvotes := 5, permalink := "", created_utc := 0,
             subreddit := "b" },
           { id := "3", title := "C", upvotes := 1, permalink := "", created_utc := 0,
             subreddit := "b" }] else none)).2.2
      = ["reddit"] :=
  fetch_all_subsource_failure_isolated
    (fun s => if s = "b" then some
      [{ id := "1", title := "A", upvotes := 9, permalink := "", created_utc := 0,
         subreddit := "b" },
       { id := "2", title := "B", upvotes := 5, permalink := "", created_utc := 0,
         subreddit := "b" },
       { id := "3", title := "C", upvotes := 1, permalink := "", created_utc := 0,
         subreddit := "b" }] else none)
    { id := "1", title := "A", upvotes := 9, permalink := "", created_utc := 0,
      subreddit := "b" }
    { id := "2", title := "B", upvotes := 5, permalink := "", created_utc := 0,
      subreddit := "b" }
    { id := "3", title := "C", upvotes := 1, permalink := "", created_utc := 0,
      subreddit := "b" }
    (by decide) (by decide) (by decide)

end TrendRadar
